import Mathlib

/-!
Shallow embedding of the Token Validation & Key-Resolution subsystem
(packages/auth-sdk/src: models.rs, config.rs, error.rs, validator.rs).

JSON values are modelled by an inductive `Json`; serde_json numbers carry
their storage encoding (integer vs floating point), since the decoder in
models.rs distinguishes them (`as_i64` vs `as_f64`).  Floating-point values
are modelled as rationals; the Rust cast `f as i64` truncates toward zero,
modelled by `f64_to_i64`.  Network fetches, RSA-component parsing and
cryptographic signature checks are oracles in an `Env` record; the cache and
a fetch counter form the explicit state `VState` threaded through the
validator.
-/

/-- serde_json number: stored either as an integer or as a float
(modelled as a rational). -/
inductive JNum where
  | int (i : Int)
  | float (q : ℚ)
deriving DecidableEq, Repr

/-- serde_json `Value`. Object fields are kept as an association list. -/
inductive Json where
  | null
  | bool (b : Bool)
  | num (n : JNum)
  | str (s : String)
  | arr (elems : List Json)
  | obj (fields : List (String × Json))
deriving Repr

/-- `Value::get(key)`: `Some` only on objects that carry the key. -/
def Json.get? (j : Json) (key : String) : Option Json :=
  match j with
  | .obj fields => (fields.find? (fun p => p.1 = key)).map (·.2)
  | _ => none

/-- `value[key]` indexing: missing key or non-object yields `Null`. -/
def Json.idx (j : Json) (key : String) : Json :=
  (j.get? key).getD .null

/-- `Value::as_str`. -/
def Json.as_str? (j : Json) : Option String :=
  match j with
  | .str s => some s
  | _ => none

/-- `Value::as_array`. -/
def Json.as_arr? (j : Json) : Option (List Json) :=
  match j with
  | .arr xs => some xs
  | _ => none

/-- `Value::as_object`. -/
def Json.as_obj? (j : Json) : Option (List (String × Json)) :=
  match j with
  | .obj fields => some fields
  | _ => none

/-- Rust `f as i64` on an in-range float: truncation toward zero. -/
def f64_to_i64 (q : ℚ) : Int :=
  q.num.tdiv (q.den : Int)

/-- models.rs `deserialize_timestamp`, run on a present field's value: the
`Option::deserialize` layer maps a JSON null to `None` and any other value
to `Some`, after which integers are taken as-is, floats truncated toward
zero, and everything else (null included) decodes to `none`.  The `Except`
layer records that the function itself never raises an error. -/
def deserialize_timestamp (v : Json) : Except String (Option Int) :=
  match v with
  | .num n =>
    match n with
    | .int i => .ok (some i)
    | .float f => .ok (some (f64_to_i64 f))
  | _ => .ok none

/-- The serde-derive handling of the `Claims.exp` and `Claims.iat` fields:
they carry `deserialize_with = "deserialize_timestamp"` but no
`serde(default)`, so the derived `Deserialize` raises a hard
"missing field" error for an absent field (the Option-defaults-to-`None`
shortcut is bypassed when `deserialize_with` is present); only a present
field's value reaches `deserialize_timestamp`. -/
def decode_timestamp_field (name : String) (v : Option Json) :
    Except String (Option Int) :=
  match v with
  | none => .error ("missing field `" ++ name ++ "`")
  | some j => deserialize_timestamp j

/-- models.rs `Claims` (the decoded token payload). -/
structure Claims where
  iss : Option String := none
  sub : Option String := none
  aud : Option Json := none
  azp : Option String := none
  exp : Option Int := none
  iat : Option Int := none
  email : Option String := none
  name : Option String := none
  resource_access : Option Json := none
  customer_id : Option String := none
  user_id : Option String := none
  token_requested_from : Option String := none
  additional_claims : List (String × Json) := []
deriving Repr

/-- models.rs `User`. -/
structure User where
  id : String
  email : Option String
  name : Option String
  roles : List String
deriving Repr

/-- The inner push loop of `extract_roles_from_claims`: collect the string
elements of a roles array. -/
def collectStrings (xs : List Json) : List String :=
  xs.filterMap Json.as_str?

/-- Roles contributed by one client's entry in `resource_access`
(the body of both loops in `extract_roles_from_claims`). -/
def clientRoles (client : Json) : List String :=
  match client.get? "roles" with
  | some r =>
    match r.as_arr? with
    | some xs => collectStrings xs
    | none => []
  | none => []

/-- models.rs `extract_roles_from_claims`. -/
def extract_roles_from_claims (claims : Claims) : List String :=
  match claims.resource_access with
  | none => []
  | some ra =>
    let tmsRoles :=
      match ra.get? "tms" with
      | some tms => clientRoles tms
      | none => []
    if tmsRoles.isEmpty then
      match ra.as_obj? with
      | some fields => fields.foldl (fun acc p => acc ++ clientRoles p.2) []
      | none => []
    else tmsRoles

/-- models.rs `User::from_claims`. -/
def User.from_claims (claims : Claims) : User :=
  { id := (claims.user_id.or claims.sub).getD ""
    email := claims.email
    name := claims.name
    roles := extract_roles_from_claims claims }

/-- models.rs `TokenValidationResult`. -/
inductive TokenValidationResult where
  | Valid (claims : Claims)
  | Invalid (reason : String)
  | Expired
  | UnknownIssuer (issuer : String)
deriving Repr

/-- jsonwebtoken `Algorithm` (the members used by the validator and a
representative sample of the rest). -/
inductive Algorithm where
  | HS256 | HS384 | HS512 | RS256 | RS384 | RS512 | ES256
deriving DecidableEq, Repr

/-- jsonwebtoken `DecodingKey`: the two constructors the validator uses. -/
inductive DecodingKey where
  | secret (s : String)
  | rsa (n e : String)
deriving DecidableEq, Repr

/-- jsonwebtoken `Header`: the fields the validator reads. -/
structure Header where
  alg : Algorithm
  kid : Option String := none
deriving Repr

/-- jsonwebtoken `ErrorKind` (the members the validator distinguishes). -/
inductive JwtErrorKind where
  | ExpiredSignature
  | InvalidSignature
  | InvalidAlgorithm
  | InvalidIssuer
  | InvalidAudience
  | MissingRequiredClaim (claim : String)
deriving DecidableEq, Repr

/-- `ErrorKind` display strings (the `e.to_string()` used for `Invalid`
reasons). -/
def jwtErrMsg : JwtErrorKind → String
  | .ExpiredSignature => "ExpiredSignature"
  | .InvalidSignature => "InvalidSignature"
  | .InvalidAlgorithm => "InvalidAlgorithm"
  | .InvalidIssuer => "InvalidIssuer"
  | .InvalidAudience => "InvalidAudience"
  | .MissingRequiredClaim c => "Missing required claim: " ++ c

/-- error.rs `AuthError`. -/
inductive AuthError where
  | InvalidTokenFormat
  | TokenExpired
  | InvalidIssuer (issuer : String)
  | JwtError (kind : JwtErrorKind)
  | RequestError (msg : String)
  | JsonError (msg : String)
  | MissingConfig
  | InvalidSymmetricKey
deriving DecidableEq, Repr

/-- config.rs `TokenValidationConfig`.  The `jwks_issuers` `HashMap` is kept
as an association list; its iteration order stands in for the map's
(unspecified) iteration order. -/
structure TokenValidationConfig where
  jwks_issuers : List (String × String)
  ship_symmetric_key : Option String := none
  allow_test_tokens : Bool := false
deriving Repr

/-- Rust `str::contains` (substring containment). -/
def strContains (hay needle : String) : Bool :=
  decide (needle.data <:+: hay.data)

/-- jsonwebtoken `Validation`: the fields the validator sets or that the
library's claim checks read. -/
structure Validation where
  required_spec_claims : List String
  algorithms : List Algorithm
  validate_exp : Bool
  validate_nbf : Bool
  validate_aud : Bool
  iss : Option (List String)
  leeway : Int
deriving Repr

/-- jsonwebtoken `Validation::new`. -/
def Validation.new (alg : Algorithm) : Validation :=
  { required_spec_claims := ["exp"]
    algorithms := [alg]
    validate_exp := true
    validate_nbf := false
    validate_aud := true
    iss := none
    leeway := 60 }

/-- Presence of a spec claim in the decoded payload, as the library's
required-claims check sees it. -/
def claimPresent (claims : Claims) : String → Bool
  | "exp" => claims.exp.isSome
  | "iss" => claims.iss.isSome
  | "aud" => claims.aud.isSome
  | "sub" => claims.sub.isSome
  | _ => true

/-- jsonwebtoken `decode::<Claims>` modelled over the already-parsed header
and payload of the one token being validated: algorithm whitelist, signature
check (`sigOk` oracle, per token), then the claim checks the validator
leaves enabled.  Signature validity may depend on the key and on the
algorithm the library verifies with. -/
def jwt_decode (sigOk : DecodingKey → Algorithm → Bool) (header : Header)
    (claims : Claims) (key : DecodingKey) (v : Validation) (now : Int) :
    Except JwtErrorKind Claims :=
  if ¬ v.algorithms.contains header.alg then .error .InvalidAlgorithm
  else if ¬ sigOk key header.alg then .error .InvalidSignature
  else match v.required_spec_claims.find? (fun c => !(claimPresent claims c)) with
  | some c => .error (.MissingRequiredClaim c)
  | none =>
    if v.validate_exp && (match claims.exp with
        | some e => decide (e < now - v.leeway)
        | none => false) then
      .error .ExpiredSignature
    else match v.iss with
    | some allowed =>
      match claims.iss with
      | none => .error (.MissingRequiredClaim "iss")
      | some i =>
        if allowed.contains i then audCheck
        else .error .InvalidIssuer
    | none => audCheck
where
  -- This validator never configures an expected audience, so only the
  -- no-expected-audience side of the library's audience check is reachable:
  -- with validation enabled a token carrying an aud claim is rejected.
  audCheck : Except JwtErrorKind Claims :=
    if v.validate_aud ∧ claims.aud.isSome then .error .InvalidAudience
    else .ok claims

/-- The per-endpoint key set: `HashMap<String, DecodingKey>` as an
association list looked up by `List.lookup` (first match). -/
abbrev KeyMap := List (String × DecodingKey)

/-- `HashMap::insert`: the new binding shadows any previous one. -/
def KeyMap.insert (m : KeyMap) (k : String) (v : DecodingKey) : KeyMap :=
  (k, v) :: List.filter (fun p => p.1 ≠ k) m

/-- `HashMap::get`. -/
def KeyMap.get? (m : KeyMap) (k : String) : Option DecodingKey :=
  List.lookup k m

/-- `LruCache<String, HashMap<String, DecodingKey>>`, most-recently-used
entry first. -/
abbrev Lru := List (String × KeyMap)

/-- `LruCache::get`: on a hit the entry moves to the most-recently-used
position. -/
def Lru.get (c : Lru) (k : String) : Option KeyMap × Lru :=
  match List.find? (fun p => p.1 = k) c with
  | none => (none, c)
  | some e => (some e.2, (k, e.2) :: List.filter (fun p => p.1 ≠ k) c)

/-- `LruCache::put` with capacity `cap`: insert or whole-replace at the
most-recently-used position, evicting the least-recently-used entry when
over capacity. -/
def Lru.put (cap : Nat) (c : Lru) (k : String) (v : KeyMap) : Lru :=
  let c1 : Lru := (k, v) :: List.filter (fun p => p.1 ≠ k) c
  if cap < c1.length then c1.take cap else c1

def Lru.keys (c : Lru) : List String := c.map (·.1)

/-- The oracles standing for this validation call's externals: the wall
clock, the HTTP fetch of a JWKS document (deterministic during one claim's
scenario), `DecodingKey::from_rsa_components` success, and the
cryptographic signature check of the one token under validation. -/
structure Env where
  now : Int
  fetch : String → Except String Json
  rsaOk : String → String → Bool
  sigOk : DecodingKey → Algorithm → Bool

/-- The validator's mutable state: the shared JWKS cache plus a counter of
network fetches performed (for stating the no-network-access properties). -/
structure VState where
  cache : Lru
  fetches : Nat
deriving DecidableEq, Repr

/-- The JWKS parse loop of `get_decoding_key_from_jwks`: non-RSA keys are
skipped; an RSA key whose `n` or `e` is missing or non-string aborts with
`InvalidTokenFormat`; RSA keys rejected by `from_rsa_components` are
skipped. -/
def parse_keys (rsaOk : String → String → Bool) (acc : KeyMap) :
    List Json → Except AuthError KeyMap
  | [] => .ok acc
  | key :: rest =>
    let key_kid := (Json.as_str? (key.idx "kid")).getD ""
    let kty := (Json.as_str? (key.idx "kty")).getD ""
    if kty = "RSA" then
      match Json.as_str? (key.idx "n") with
      | none => .error .InvalidTokenFormat
      | some n =>
        match Json.as_str? (key.idx "e") with
        | none => .error .InvalidTokenFormat
        | some e =>
          if rsaOk n e then
            parse_keys rsaOk (acc.insert key_kid (.rsa n e)) rest
          else parse_keys rsaOk acc rest
    else parse_keys rsaOk acc rest

/-- validator.rs `get_decoding_key_from_jwks`: check the cache (marking the
endpoint recently used); on a hit that contains `kid` return it with no
network access; otherwise fetch, parse, whole-replace the cache entry, and
look `kid` up in the fresh mapping. -/
def get_decoding_key_from_jwks (env : Env) (st : VState)
    (jwks_url kid : String) : Except AuthError DecodingKey × VState :=
  let hit := Lru.get st.cache jwks_url
  let st1 : VState := { st with cache := hit.2 }
  let cached : Option DecodingKey :=
    match hit.1 with
    | some keys => keys.get? kid
    | none => none
  match cached with
  | some key => (.ok key, st1)
  | none =>
    match env.fetch jwks_url with
    | .error msg => (.error (.RequestError msg), { st1 with fetches := st1.fetches + 1 })
    | .ok jwks =>
      let st2 : VState := { st1 with fetches := st1.fetches + 1 }
      match Json.as_arr? (jwks.idx "keys") with
      | none => (.error .InvalidTokenFormat, st2)
      | some keys =>
        match parse_keys env.rsaOk [] keys with
        | .error e => (.error e, st2)
        | .ok decoded_keys =>
          let st3 : VState := { st2 with cache := Lru.put 10 st2.cache jwks_url decoded_keys }
          match decoded_keys.get? kid with
          | some key => (.ok key, st3)
          | none => (.error .InvalidTokenFormat, st3)

/-- validator.rs `validate_ship_token` (shared-secret scheme). -/
def validate_ship_token (cfg : TokenValidationConfig) (env : Env)
    (st : VState) (header : Header) (claims : Claims) :
    Except AuthError TokenValidationResult × VState :=
  match cfg.ship_symmetric_key with
  | none => (.error .MissingConfig, st)
  | some ship_key =>
    let validation : Validation :=
      { Validation.new .HS256 with
          required_spec_claims := []
          validate_exp := true
          validate_aud := false
          validate_nbf := false }
    let decoding_key : DecodingKey := .secret ship_key
    match jwt_decode env.sigOk header claims decoding_key validation env.now with
    | .ok token_claims => (.ok (.Valid token_claims), st)
    | .error .ExpiredSignature => (.ok .Expired, st)
    | .error _ => (.ok (.Invalid "All key formats failed"), st)

/-- validator.rs `validate_jwks_token`: endpoint selection by first
substring match, `kid` requirement, key resolution, then library
verification with the header's algorithm, the token's own issuer string as
the expected issuer, and audience validation disabled. -/
def validate_jwks_token (cfg : TokenValidationConfig) (env : Env)
    (st : VState) (issuer : String) (header : Header) (claims : Claims) :
    Except AuthError TokenValidationResult × VState :=
  match List.find? (fun p => strContains issuer p.1) cfg.jwks_issuers with
  | none => (.error (.InvalidIssuer issuer), st)
  | some (_, jwks_url) =>
    match header.kid with
    | none => (.error .InvalidTokenFormat, st)
    | some kid =>
      match get_decoding_key_from_jwks env st jwks_url kid with
      | (.error e, st1) => (.error e, st1)
      | (.ok decoding_key, st1) =>
        let validation : Validation :=
          { Validation.new header.alg with
              iss := some [issuer]
              validate_aud := false }
        match jwt_decode env.sigOk header claims decoding_key validation env.now with
        | .ok token_claims => (.ok (.Valid token_claims), st1)
        | .error .ExpiredSignature => (.ok .Expired, st1)
        | .error e => (.ok (.Invalid (jwtErrMsg e)), st1)

/-- validator.rs `validate_token`, after the unauthenticated decode of the
header and claims has succeeded (a well-formed token): expiration
short-circuit, internal-scheme dispatch, issuer requirement, test bypass,
then the external-JWKS path. -/
def validate_token (cfg : TokenValidationConfig) (env : Env) (st : VState)
    (header : Header) (claims : Claims) :
    Except AuthError TokenValidationResult × VState :=
  let expired : Bool :=
    match claims.exp with
    | some exp => decide (env.now ≥ exp)
    | none => false
  if expired then (.ok .Expired, st)
  else if claims.token_requested_from.isSome || claims.user_id.isSome
      || claims.customer_id.isSome then
    validate_ship_token cfg env st header claims
  else
    match claims.iss with
    | none => (.error .InvalidTokenFormat, st)
    | some issuer =>
      if cfg.allow_test_tokens && strContains issuer "test" then
        (.ok (.Valid claims), st)
      else validate_jwks_token cfg env st issuer header claims

/-- Resolve a sequence of endpoints in order through the key cache (the
scenario of the cache-bound property). -/
def resolveAll (env : Env) (kid : String) (st : VState) :
    List String → VState
  | [] => st
  | url :: rest =>
    resolveAll env kid (get_decoding_key_from_jwks env st url kid).2 rest

/-- A key-resolution call against `url` that succeeds end to end: the fetch
returns a JWKS document whose keys parse and contain `kid`. -/
def fetchOk (env : Env) (kid url : String) : Prop :=
  ∃ jwks keys km key, env.fetch url = .ok jwks
    ∧ Json.as_arr? (jwks.idx "keys") = some keys
    ∧ parse_keys env.rsaOk [] keys = .ok km
    ∧ KeyMap.get? km kid = some key

/-! Concrete material for witnesses and counterexamples. -/

/-- The empty validator state. -/
def wSt0 : VState := { cache := [], fetches := 0 }

/-- An environment whose network is down; time 0; permissive crypto. -/
def wEnvNoNet : Env :=
  { now := 0
    fetch := fun _ => .error "connection refused"
    rsaOk := fun _ _ => true
    sigOk := fun _ _ => true }

/-- `wEnvNoNet` at time 100. -/
def wEnv100 : Env := { wEnvNoNet with now := 100 }

/-- A well-formed JWKS document: one RSA key with kid "k1". -/
def wJwksGood : Json :=
  .obj [("keys", .arr [.obj [("kid", .str "k1"), ("kty", .str "RSA"),
    ("n", .str "nn"), ("e", .str "ee")]])]

/-- A JWKS document with one good RSA key and one RSA key missing "n". -/
def wJwksBad : Json :=
  .obj [("keys", .arr [
    .obj [("kid", .str "k1"), ("kty", .str "RSA"),
      ("n", .str "nn"), ("e", .str "ee")],
    .obj [("kid", .str "k2"), ("kty", .str "RSA"), ("e", .str "ee")]])]

/-- Environment in which every endpoint publishes `wJwksGood`. -/
def wEnvNet : Env := { wEnvNoNet with fetch := fun _ => .ok wJwksGood }

/-- Environment in which every endpoint publishes `wJwksBad`. -/
def wEnvBad : Env := { wEnvNoNet with fetch := fun _ => .ok wJwksBad }

/-- Config with one configured issuer name "issuerA". -/
def wCfgA : TokenValidationConfig := { jwks_issuers := [("issuerA", "urlA")] }

/-- Config with one configured issuer name "auth". -/
def wCfgAuth : TokenValidationConfig := { jwks_issuers := [("auth", "urlA")] }

/-- Config allowing test tokens. -/
def wCfgTest : TokenValidationConfig :=
  { jwks_issuers := [], allow_test_tokens := true }

/-- Config with a shared secret for the internal scheme. -/
def wCfgShip : TokenValidationConfig :=
  { jwks_issuers := [], ship_symmetric_key := some "secret" }

/-- Header without a key id. -/
def wHdr : Header := { alg := .RS256 }

/-- Header carrying kid "k1". -/
def wHdrKid : Header := { alg := .RS256, kid := some "k1" }

/-- State whose cache already holds endpoint "urlA" with key "k1". -/
def wStAuth : VState :=
  { cache := [("urlA", [("k1", DecodingKey.rsa "nn" "ee")])], fetches := 0 }

/-- Claims with an unknown issuer and a future expiration. -/
def wClaimsOther : Claims := { iss := some "other", exp := some 100 }

/-- Claims whose issuer strictly contains the configured name "auth". -/
def wClaimsAuthX : Claims := { iss := some "my-auth-x", exp := some 100 }

/-- Internal-scheme claims (userId marker) that also carry an issuer. -/
def wClaimsShip : Claims :=
  { user_id := some "u7", iss := some "other", exp := some 100 }

/-- Claims with neither an internal-scheme marker nor an issuer. -/
def wClaimsNoIss : Claims := { exp := some 100 }

/-- Claims whose issuer contains the substring "test". -/
def wClaimsTest : Claims := { iss := some "my-test-issuer", exp := some 100 }

/-- Eleven distinct endpoints. -/
def wEps : List String :=
  ["e0", "e1", "e2", "e3", "e4", "e5", "e6", "e7", "e8", "e9", "e10"]

/-- A resource_access map with roles under "tms" and under "other". -/
def wRaBoth : Json :=
  .obj [("tms", .obj [("roles", .arr [.str "a", .str "b"])]),
        ("other", .obj [("roles", .arr [.str "c"])])]

/-- A resource_access map without "tms". -/
def wRaNoTms : Json :=
  .obj [("other", .obj [("roles", .arr [.str "c"])]),
        ("o2", .obj [("roles", .arr [.str "d"])])]

/-- A resource_access map whose "tms" role list is empty. -/
def wRaEmptyTms : Json :=
  .obj [("tms", .obj [("roles", .arr [])]),
        ("other", .obj [("roles", .arr [.str "c"])])]

/-! Helper lemmas. -/

theorem expired_flag_false {env : Env} {claims : Claims}
    (h : ∀ e, claims.exp = some e → env.now < e) :
    (match claims.exp with
      | some exp => decide (env.now ≥ exp)
      | none => false) = false := by
  cases hE : claims.exp with
  | none => rfl
  | some e => simpa using not_le.mpr (h e hE)

/-! Claim theorems. -/

/-- C1: for every well-formed token whose decoded claims carry an
expiration at or before the current time, `validate_token` returns
`Expired` immediately, with the state untouched (no cache access, no
fetch) and for every environment (hence independently of signature
validity, which lives in `env.sigOk`). -/
theorem c1_expiration_short_circuit (cfg : TokenValidationConfig)
    (env : Env) (st : VState) (header : Header) (claims : Claims) (e : Int)
    (hexp : claims.exp = some e) (hle : e ≤ env.now) :
    validate_token cfg env st header claims = (.ok .Expired, st) := by
  simp [validate_token, hexp, ge_iff_le, hle]

theorem c1_expiration_short_circuit_witness :
    validate_token wCfgA wEnv100 wSt0 wHdr wClaimsOther
      = (.ok .Expired, wSt0) :=
  c1_expiration_short_circuit wCfgA wEnv100 wSt0 wHdr wClaimsOther 100
    rfl (by decide)

/-- C3: scheme classification of well-formed, unexpired tokens.  If any of
the three internal-scheme markers is present in the claims, the internal
(shared-secret) path is taken — with no condition on the issuer claim, so
also when `iss` is present.  If no marker is present and `iss` is also
absent, the call fails with `InvalidTokenFormat`. -/
theorem c3_scheme_classification (cfg : TokenValidationConfig) (env : Env)
    (st : VState) (header : Header) (claims : Claims)
    (hfresh : ∀ e, claims.exp = some e → env.now < e) :
    ((claims.token_requested_from.isSome || claims.user_id.isSome
        || claims.customer_id.isSome) = true →
      validate_token cfg env st header claims
        = validate_ship_token cfg env st header claims)
    ∧ ((claims.token_requested_from.isSome || claims.user_id.isSome
        || claims.customer_id.isSome) = false → claims.iss = none →
      validate_token cfg env st header claims
        = (.error .InvalidTokenFormat, st)) := by
  constructor
  · intro hm
    simp [validate_token, expired_flag_false hfresh, hm]
  · intro hm hiss
    simp [validate_token, expired_flag_false hfresh, hm, hiss]

theorem c3_scheme_classification_witness :
    (validate_token wCfgShip wEnvNoNet wSt0 wHdr wClaimsShip
        = validate_ship_token wCfgShip wEnvNoNet wSt0 wHdr wClaimsShip)
    ∧ (validate_token wCfgA wEnvNoNet wSt0 wHdr wClaimsNoIss
        = (.error .InvalidTokenFormat, wSt0)) :=
  ⟨(c3_scheme_classification wCfgShip wEnvNoNet wSt0 wHdr wClaimsShip
      (by intro e he; cases he; decide)).1 rfl,
   (c3_scheme_classification wCfgA wEnvNoNet wSt0 wHdr wClaimsNoIss
      (by intro e he; cases he; decide)).2 rfl rfl⟩

/-- C4: development bypass.  For a well-formed, unexpired token without
internal-scheme markers, if the bypass flag is set and the issuer contains
"test", `validate_token` returns `Valid` with the decoded claims, leaves
the state untouched (no key-cache access, no network fetch — the fetch
counter and cache are unchanged), and does so for every environment (hence
without any signature check). -/
theorem c4_test_bypass (cfg : TokenValidationConfig) (env : Env)
    (st : VState) (header : Header) (claims : Claims) (issuer : String)
    (hfresh : ∀ e, claims.exp = some e → env.now < e)
    (hm : (claims.token_requested_from.isSome || claims.user_id.isSome
        || claims.customer_id.isSome) = false)
    (hiss : claims.iss = some issuer)
    (hflag : cfg.allow_test_tokens = true)
    (htest : strContains issuer "test" = true) :
    validate_token cfg env st header claims = (.ok (.Valid claims), st) := by
  simp [validate_token, expired_flag_false hfresh, hm, hiss, hflag, htest]

theorem c4_test_bypass_witness :
    validate_token wCfgTest wEnvNoNet wSt0 wHdr wClaimsTest
      = (.ok (.Valid wClaimsTest), wSt0) :=
  c4_test_bypass wCfgTest wEnvNoNet wSt0 wHdr wClaimsTest "my-test-issuer"
    (by intro e he; cases he; decide) rfl rfl rfl (by decide)

/-- C2 counterexample: with one configured issuer "issuerA" and a
well-formed, unexpired, marker-free token whose issuer "other" matches no
configured issuer, `validate_token` returns the fatal error
`InvalidIssuer` — not the `UnknownIssuer` outcome the claim requires. -/
theorem c2_counterexample :
    (validate_token wCfgA wEnvNoNet wSt0 wHdr wClaimsOther).1
        = .error (.InvalidIssuer "other")
    ∧ (validate_token wCfgA wEnvNoNet wSt0 wHdr wClaimsOther).1
        ≠ .ok (.UnknownIssuer "other") := by
  have h : (validate_token wCfgA wEnvNoNet wSt0 wHdr wClaimsOther).1
      = .error (.InvalidIssuer "other") := rfl
  exact ⟨h, by rw [h]; exact fun hc => Except.noConfusion hc⟩

/-- C2 (amended): for every well-formed, unexpired token without
internal-scheme markers whose issuer contains no configured issuer name as
a substring (and which does not hit the test bypass), `validate_token`
fails with the fatal error `InvalidIssuer` carrying that issuer string; the
first-class `UnknownIssuer` outcome variant exists in the model but is
never produced. -/
theorem c2_unknown_issuer_amended (cfg : TokenValidationConfig) (env : Env)
    (st : VState) (header : Header) (claims : Claims) (issuer : String)
    (hfresh : ∀ e, claims.exp = some e → env.now < e)
    (hm : (claims.token_requested_from.isSome || claims.user_id.isSome
        || claims.customer_id.isSome) = false)
    (hiss : claims.iss = some issuer)
    (hbypass : (cfg.allow_test_tokens && strContains issuer "test") = false)
    (hnomatch : ∀ p ∈ cfg.jwks_issuers, strContains issuer p.1 = false) :
    validate_token cfg env st header claims
      = (.error (.InvalidIssuer issuer), st) := by
  have hfind : List.find? (fun p => strContains issuer p.1) cfg.jwks_issuers
      = none :=
    List.find?_eq_none.mpr (by intro p hp; simp [hnomatch p hp])
  simp [validate_token, expired_flag_false hfresh, hm, hiss, hbypass,
    validate_jwks_token, hfind]

theorem c2_unknown_issuer_amended_witness :
    validate_token wCfgA wEnvNoNet wSt0 wHdr wClaimsOther
      = (.error (.InvalidIssuer "other"), wSt0) :=
  c2_unknown_issuer_amended wCfgA wEnvNoNet wSt0 wHdr wClaimsOther "other"
    (by intro e he; cases he; decide) rfl rfl (by decide) (by decide)

/-- The Rust cast `f as i64` (modelled by `f64_to_i64`) agrees with the
floor on nonnegative values. -/
theorem f64_to_i64_nonneg (q : ℚ) (h : 0 ≤ q) : f64_to_i64 q = ⌊q⌋ := by
  unfold f64_to_i64
  rw [Int.tdiv_eq_ediv (Rat.num_nonneg.mpr h) (by positivity), Rat.floor_def]

/-- `f64_to_i64` truncates toward zero: floor on nonnegative values, ceiling
on negative ones. -/
theorem f64_trunc_toward_zero (q : ℚ) :
    f64_to_i64 q = if 0 ≤ q then ⌊q⌋ else ⌈q⌉ := by
  by_cases h : 0 ≤ q
  · rw [if_pos h, f64_to_i64_nonneg q h]
  · rw [if_neg h]
    have hq : 0 ≤ -q := neg_nonneg.mpr (le_of_lt (not_le.mp h))
    have h1 : f64_to_i64 q = -(f64_to_i64 (-q)) := by
      unfold f64_to_i64
      rw [Rat.neg_num, Rat.neg_den, Int.neg_tdiv, neg_neg]
    rw [h1, f64_to_i64_nonneg _ hq, ← Int.ceil_neg, neg_neg]

/-- C8 counterexample: an absent `exp`/`iat` field does NOT decode to
`none` — the `deserialize_with` attribute without `serde(default)` makes
the serde derive fail `Claims` deserialization with a "missing field"
error, contradicting the claim's "absent ... never causes a decode
error". -/
theorem c8_counterexample :
    decode_timestamp_field "exp" none = .error "missing field `exp`"
    ∧ decode_timestamp_field "exp" none ≠ .ok none :=
  ⟨rfl, fun h => Except.noConfusion h⟩

/-- C8 (amended): decoding a PRESENT `exp`/`iat` field accepts both
integer and floating-point JSON numeric encodings (floats truncated
toward zero), decodes any present non-numeric value (null included) to
`none`, and never errors on a present value; an ABSENT field, however,
aborts payload deserialization with a "missing field" error. -/
theorem c8_timestamp_decoding_amended :
    (∀ (name : String) (i : Int),
      decode_timestamp_field name (some (.num (.int i))) = .ok (some i))
    ∧ (∀ (name : String) (q : ℚ),
      decode_timestamp_field name (some (.num (.float q)))
        = .ok (some (if 0 ≤ q then ⌊q⌋ else ⌈q⌉)))
    ∧ (∀ (name : String) (j : Json), (∀ n, j ≠ .num n) →
      decode_timestamp_field name (some j) = .ok none)
    ∧ (∀ j : Json, ∃ r, deserialize_timestamp j = .ok r)
    ∧ (∀ name : String, decode_timestamp_field name none
        = .error ("missing field `" ++ name ++ "`")) := by
  refine ⟨fun name i => rfl, fun name q => ?_, fun name j hj => ?_,
    fun j => ?_, fun name => rfl⟩
  · simp [decode_timestamp_field, deserialize_timestamp,
      f64_trunc_toward_zero]
  · cases j <;> first | rfl | exact absurd rfl (hj _)
  · match j with
    | .null => exact ⟨none, rfl⟩
    | .bool b => exact ⟨none, rfl⟩
    | .num (.int i) => exact ⟨some i, rfl⟩
    | .num (.float q) => exact ⟨some (f64_to_i64 q), rfl⟩
    | .str s => exact ⟨none, rfl⟩
    | .arr xs => exact ⟨none, rfl⟩
    | .obj fs => exact ⟨none, rfl⟩

theorem c8_timestamp_decoding_amended_witness :
    decode_timestamp_field "exp" (some (.num (.float (-7/2))))
        = .ok (some (-3))
    ∧ decode_timestamp_field "iat" (some (.str "soon")) = .ok none
    ∧ decode_timestamp_field "iat" none
        = .error "missing field `iat`" := by
  refine ⟨?_, ?_, ?_⟩
  · have h := c8_timestamp_decoding_amended.2.1 "exp" (-7/2)
    rw [h]
    norm_num [Int.ceil_eq_iff]
  · exact c8_timestamp_decoding_amended.2.2.1 "iat" (.str "soon")
      (fun n h => by cases h)
  · exact c8_timestamp_decoding_amended.2.2.2.2 "iat"

/-- C9: role extraction.  Over a `resource_access` object, if the "tms"
client is present with a nonempty (string) role list, the Identity's roles
are exactly the "tms" roles — roles under other clients are excluded; if
"tms" is absent or contributes no roles, the roles of all clients are
aggregated in order. -/
theorem c9_role_extraction (claims : Claims) (ra : Json)
    (fields : List (String × Json))
    (hra : claims.resource_access = some ra) (hobj : ra = .obj fields) :
    (∀ tmsV, ra.get? "tms" = some tmsV → clientRoles tmsV ≠ [] →
      (User.from_claims claims).roles = clientRoles tmsV)
    ∧ ((match ra.get? "tms" with
        | some t => clientRoles t
        | none => ([] : List String)) = [] →
      (User.from_claims claims).roles
        = fields.foldl (fun acc p => acc ++ clientRoles p.2) []) := by
  subst hobj
  have hroles : (User.from_claims claims).roles
      = extract_roles_from_claims claims := rfl
  constructor
  · intro tmsV htms hne
    have hie : (clientRoles tmsV).isEmpty = false := by
      cases hcr : clientRoles tmsV with
      | nil => exact absurd hcr hne
      | cons a l => rfl
    rw [hroles]
    simp [extract_roles_from_claims, hra, htms, hie]
  · intro hempty
    rw [hroles]
    cases htms : Json.get? (.obj fields) "tms" with
    | none =>
      rw [htms] at hempty
      simp [extract_roles_from_claims, hra, htms, Json.as_obj?]
    | some t =>
      rw [htms] at hempty
      have hempty2 : clientRoles t = [] := hempty
      have hie : (clientRoles t).isEmpty = true := by simp [hempty2]
      simp [extract_roles_from_claims, hra, htms, hie, Json.as_obj?]

theorem c9_role_extraction_witness :
    (User.from_claims { resource_access := some wRaBoth }).roles = ["a", "b"]
    ∧ (User.from_claims { resource_access := some wRaNoTms }).roles
        = ["c", "d"]
    ∧ (User.from_claims { resource_access := some wRaEmptyTms }).roles
        = ["c"] := by
  refine ⟨?_, ?_, ?_⟩
  · exact (c9_role_extraction _ wRaBoth _ rfl rfl).1
      (.obj [("roles", .arr [.str "a", .str "b"])]) rfl (by decide)
  · exact (c9_role_extraction _ wRaNoTms _ rfl rfl).2 rfl
  · exact (c9_role_extraction _ wRaEmptyTms _ rfl rfl).2 rfl

/-- Evaluation of the library verification step on the External-JWKS path:
with the validation object the validator builds there (header algorithm,
expected issuer set to the token's own issuer string, audience disabled),
an unexpired token with its issuer present verifies exactly when the
signature check passes. -/
theorem jwt_decode_jwks_eval (sigOk : DecodingKey → Algorithm → Bool)
    (header : Header) (claims : Claims) (key : DecodingKey)
    (issuer : String) (now e : Int)
    (hexp : claims.exp = some e) (hnow : now < e)
    (hiss : claims.iss = some issuer) :
    jwt_decode sigOk header claims key
      { Validation.new header.alg with
          iss := some [issuer], validate_aud := false } now
      = (if sigOk key header.alg then .ok claims
         else .error .InvalidSignature) := by
  have hp : claimPresent claims "exp" = true := by simp [claimPresent, hexp]
  have hlt : decide (e < now - (60 : Int)) = false :=
    decide_eq_false (by omega)
  cases hs : sigOk key header.alg <;>
    simp [jwt_decode, Validation.new, hs, hp, hexp, hiss, hlt,
      jwt_decode.audCheck]

/-- C5 counterexample: configured issuer name "auth", token issuer
"my-auth-x" (a strict superstring, not equal).  With the key already
cached and a valid signature, verification succeeds — so equality between
the token's issuer claim and the matched configured issuer is NOT
required: the expected-issuer set the validator hands the library is the
token's own issuer string. -/
theorem c5_counterexample :
    (validate_token wCfgAuth wEnvNoNet wStAuth wHdrKid wClaimsAuthX).1
        = .ok (.Valid wClaimsAuthX)
    ∧ wClaimsAuthX.iss = some "my-auth-x"
    ∧ (List.find? (fun p => strContains "my-auth-x" p.1)
        wCfgAuth.jwks_issuers).map (fun p => p.1) = some "auth"
    ∧ "my-auth-x" ≠ "auth" := by
  refine ⟨rfl, rfl, rfl, by decide⟩

/-- C5 (amended): on the External-JWKS path the signature is verified with
the algorithm declared in the token's header (the outcome depends on
`env.sigOk key header.alg`), the audience claim is not enforced (no
hypothesis on `claims.aud`), and the library's issuer check compares the
token's issuer claim against the token's own issuer string — not against
the matched configured issuer, whose name (`name`) is unconstrained here
beyond the substring match that selects the endpoint — so it is always
satisfied. -/
theorem c5_jwks_verification_amended (cfg : TokenValidationConfig)
    (env : Env) (st st1 : VState) (header : Header) (claims : Claims)
    (issuer name jwks_url kid : String) (key : DecodingKey) (e : Int)
    (hexp : claims.exp = some e) (hnow : env.now < e)
    (hm : (claims.token_requested_from.isSome || claims.user_id.isSome
        || claims.customer_id.isSome) = false)
    (hiss : claims.iss = some issuer)
    (hbypass : (cfg.allow_test_tokens && strContains issuer "test") = false)
    (hfind : List.find? (fun p => strContains issuer p.1) cfg.jwks_issuers
        = some (name, jwks_url))
    (hkid : header.kid = some kid)
    (hres : get_decoding_key_from_jwks env st jwks_url kid
        = (.ok key, st1)) :
    validate_token cfg env st header claims
      = (if env.sigOk key header.alg then .ok (.Valid claims)
         else .ok (.Invalid (jwtErrMsg .InvalidSignature)), st1) := by
  have hfresh : ∀ e2, claims.exp = some e2 → env.now < e2 := by
    intro e2 he2
    rw [hexp] at he2
    cases he2
    exact hnow
  have hjd := jwt_decode_jwks_eval env.sigOk header claims key issuer
    env.now e hexp hnow hiss
  cases hs : env.sigOk key header.alg <;>
    rw [hs] at hjd <;>
    simp [validate_token, expired_flag_false hfresh, hm, hiss, hbypass,
      validate_jwks_token, hfind, hkid, hres, hjd, jwtErrMsg]

theorem c5_jwks_verification_amended_witness :
    validate_token wCfgAuth wEnvNoNet wStAuth wHdrKid wClaimsAuthX
      = (.ok (.Valid wClaimsAuthX), wStAuth) := by
  have h := c5_jwks_verification_amended wCfgAuth wEnvNoNet wStAuth wStAuth
    wHdrKid wClaimsAuthX "my-auth-x" "auth" "urlA" "k1"
    (.rsa "nn" "ee") 100 rfl (by decide) rfl rfl (by decide) (by decide)
    rfl rfl
  exact h

/-- Non-RSA key objects are skipped: a key list with no RSA entries parses
to the accumulator unchanged, with no error. -/
theorem parse_keys_skips_non_rsa (rsaOk : String → String → Bool) :
    ∀ (keys : List Json) (acc : KeyMap),
    (∀ k ∈ keys, (Json.as_str? (k.idx "kty")).getD "" ≠ "RSA") →
    parse_keys rsaOk acc keys = .ok acc := by
  intro keys
  induction keys with
  | nil => intro acc _; rfl
  | cons hd rest ih =>
    intro acc h
    have hhd := h hd (List.mem_cons_self hd rest)
    simp only [parse_keys, if_neg hhd]
    exact ih acc (fun k hk => h k (List.mem_cons_of_mem hd hk))

/-- One RSA key object missing its "n" or "e" aborts the whole parse with
`InvalidTokenFormat`, wherever it sits in the list. -/
theorem parse_keys_aborts_on_bad_rsa (rsaOk : String → String → Bool) :
    ∀ (keys : List Json) (acc : KeyMap) (k : Json), k ∈ keys →
    (Json.as_str? (k.idx "kty")).getD "" = "RSA" →
    (Json.as_str? (k.idx "n") = none ∨ Json.as_str? (k.idx "e") = none) →
    parse_keys rsaOk acc keys = .error .InvalidTokenFormat := by
  intro keys
  induction keys with
  | nil => intro acc k hk; cases hk
  | cons hd rest ih =>
    intro acc k hk hrsa hbad
    rcases List.mem_cons.mp hk with rfl | hk2
    · simp only [parse_keys, if_pos hrsa]
      rcases hbad with hn | he
      · rw [hn]
      · cases hn : Json.as_str? (k.idx "n") with
        | none => rfl
        | some n => rw [he]
    · by_cases hhd : (Json.as_str? (hd.idx "kty")).getD "" = "RSA"
      · simp only [parse_keys, if_pos hhd]
        cases hn : Json.as_str? (hd.idx "n") with
        | none => rfl
        | some n =>
          cases he : Json.as_str? (hd.idx "e") with
          | none => rfl
          | some e2 =>
            by_cases hro : rsaOk n e2 = true
            · exact (if_pos hro).trans (ih _ k hk2 hrsa hbad)
            · exact (if_neg hro).trans (ih _ k hk2 hrsa hbad)
      · simp only [parse_keys, if_neg hhd]
        exact ih _ k hk2 hrsa hbad

/-- A cache miss whose `Lru.get` found nothing leaves the cache order
untouched. -/
theorem lru_get_none_cache {c : Lru} {k : String}
    (h : (Lru.get c k).1 = none) : (Lru.get c k).2 = c := by
  unfold Lru.get at h ⊢
  cases hf : List.find? (fun p => p.1 = k) c with
  | none => rfl
  | some e => rw [hf] at h; cases h

/-- C10: during a JWKS fetch, key objects whose `kty` is not "RSA" are
skipped without error; but a single RSA key object lacking "n" or "e"
aborts the entire resolution with `InvalidTokenFormat`, and the cache is
left without any entry from that response (the fetch is counted, nothing
is cached). -/
theorem c10_bad_rsa_aborts_resolution (env : Env) (st : VState)
    (url kid : String) (jwks : Json) (keys : List Json) (k : Json)
    (hmiss : (Lru.get st.cache url).1 = none)
    (hfetch : env.fetch url = .ok jwks)
    (hkeys : Json.as_arr? (jwks.idx "keys") = some keys)
    (hmem : k ∈ keys)
    (hrsa : (Json.as_str? (k.idx "kty")).getD "" = "RSA")
    (hbad : Json.as_str? (k.idx "n") = none
        ∨ Json.as_str? (k.idx "e") = none) :
    (∀ (keys2 : List Json) (acc : KeyMap),
      (∀ k2 ∈ keys2, (Json.as_str? (k2.idx "kty")).getD "" ≠ "RSA") →
      parse_keys env.rsaOk acc keys2 = .ok acc)
    ∧ get_decoding_key_from_jwks env st url kid
        = (.error .InvalidTokenFormat,
           { cache := st.cache, fetches := st.fetches + 1 }) := by
  refine ⟨fun keys2 acc h => parse_keys_skips_non_rsa env.rsaOk keys2 acc h,
    ?_⟩
  have hparse := parse_keys_aborts_on_bad_rsa env.rsaOk keys [] k hmem
    hrsa hbad
  have hc := lru_get_none_cache hmiss
  simp [get_decoding_key_from_jwks, hmiss, hc, hfetch, hkeys, hparse]

theorem c10_bad_rsa_aborts_resolution_witness :
    get_decoding_key_from_jwks wEnvBad wSt0 "urlX" "k1"
      = (.error .InvalidTokenFormat, { cache := [], fetches := 1 }) := by
  have h := c10_bad_rsa_aborts_resolution wEnvBad wSt0 "urlX" "k1" wJwksBad
    [.obj [("kid", .str "k1"), ("kty", .str "RSA"),
      ("n", .str "nn"), ("e", .str "ee")],
     .obj [("kid", .str "k2"), ("kty", .str "RSA"), ("e", .str "ee")]]
    (.obj [("kid", .str "k2"), ("kty", .str "RSA"), ("e", .str "ee")])
    rfl rfl rfl (List.mem_cons_of_mem _ (List.mem_cons_self _ _)) rfl
    (Or.inl rfl)
  exact h.2

/-- After `Lru.put`, the written entry is at the most-recently-used
position and carries exactly the new mapping; no other entry for the same
endpoint remains. -/
theorem lru_put_shape (c : Lru) (k : String) (v : KeyMap) :
    ∃ t, Lru.put 10 c k v = (k, v) :: t ∧ ∀ p ∈ t, p.1 ≠ k := by
  unfold Lru.put
  have hf : ∀ p ∈ List.filter (fun p => p.1 ≠ k) c, p.1 ≠ k := by
    intro p hp
    simpa using List.of_mem_filter hp
  by_cases hlen : 10 < ((k, v) :: List.filter (fun p => p.1 ≠ k) c).length
  · refine ⟨(List.filter (fun p => p.1 ≠ k) c).take 9, ?_, ?_⟩
    · rw [if_pos hlen]
      rfl
    · intro p hp
      exact hf p (List.take_subset 9 _ hp)
  · exact ⟨List.filter (fun p => p.1 ≠ k) c, by rw [if_neg hlen], hf⟩

/-- A cache hit moves the entry to the most-recently-used position; the
rest of the resulting cache has no entry for that endpoint. -/
theorem lru_get_hit_shape (c : Lru) (k : String) (m : KeyMap)
    (h : (Lru.get c k).1 = some m) :
    ∃ t, (Lru.get c k).2 = (k, m) :: t ∧ ∀ p ∈ t, p.1 ≠ k := by
  unfold Lru.get at h ⊢
  cases hf : List.find? (fun p => p.1 = k) c with
  | none => rw [hf] at h; cases h
  | some e =>
    rw [hf] at h
    have hm : e.2 = m := Option.some.inj h
    refine ⟨List.filter (fun p => p.1 ≠ k) c, ?_, ?_⟩
    · exact congrArg (fun x => (k, x) :: List.filter (fun p => p.1 ≠ k) c) hm
    · intro p hp
      simpa using List.of_mem_filter hp

/-- A resolution against a state whose cache already holds `(url, m)` at
the front with `kid` present in `m` is a pure cache hit: it returns the
cached key and leaves the state exactly unchanged (no fetch). -/
theorem resolve_cached_hit (env : Env) (st1 : VState) (url kid : String)
    (m : KeyMap) (t : Lru) (key : DecodingKey)
    (hshape : st1.cache = (url, m) :: t)
    (htail : ∀ p ∈ t, p.1 ≠ url)
    (hkid : KeyMap.get? m kid = some key) :
    get_decoding_key_from_jwks env st1 url kid = (.ok key, st1) := by
  have hfind : List.find? (fun p => p.1 = url) ((url, m) :: t)
      = some (url, m) :=
    List.find?_cons_of_pos _ (by simp)
  have hfilter : List.filter (fun p => p.1 ≠ url) ((url, m) :: t) = t := by
    rw [List.filter_cons_of_neg (by simp)]
    exact List.filter_eq_self.mpr (fun p hp => by simpa using htail p hp)
  unfold get_decoding_key_from_jwks Lru.get
  rw [hshape, hfind, hfilter]
  simp only [hkid]
  rw [← hshape]

/-- Any successful resolution leaves the resolved endpoint's mapping at
the front of the cache, containing the returned key under `kid`. -/
theorem resolve_ok_state (env : Env) (st : VState) (url kid : String)
    (key : DecodingKey) (st1 : VState)
    (h : get_decoding_key_from_jwks env st url kid = (.ok key, st1)) :
    ∃ m t, st1.cache = (url, m) :: t ∧ (∀ p ∈ t, p.1 ≠ url)
      ∧ KeyMap.get? m kid = some key := by
  simp only [get_decoding_key_from_jwks] at h
  split at h
  case h_1 key0 heq =>
    split at heq
    case h_1 m hm =>
      obtain ⟨t, hshape, htail⟩ := lru_get_hit_shape st.cache url m hm
      have hk : key0 = key := by
        have := congrArg Prod.fst h
        simpa using this
      have hst : st1.cache = (Lru.get st.cache url).2 := by
        have := congrArg Prod.snd h
        simp at this
        rw [← this]
      exact ⟨m, t, hst.trans hshape, htail, hk ▸ heq⟩
    case h_2 hm => cases heq
  case h_2 heq =>
    split at h
    case h_1 msg hf => simp at h
    case h_2 jwks hf =>
      split at h
      case h_1 hkeys => simp at h
      case h_2 keys hkeys =>
        split at h
        case h_1 e hp => simp at h
        case h_2 km hp =>
          split at h
          case h_1 key0 hkk =>
            obtain ⟨t, hshape, htail⟩ := lru_put_shape
              ({ st with cache := (Lru.get st.cache url).2 } : VState).cache
              url km
            have hk : key0 = key := by
              have := congrArg Prod.fst h
              simpa using this
            have hst : st1.cache = Lru.put 10
                ({ st with cache := (Lru.get st.cache url).2 } : VState).cache
                url km := by
              have := congrArg Prod.snd h
              simp at this
              rw [← this]
            exact ⟨km, t, hst.trans hshape, htail, hk ▸ hkk⟩
          case h_2 hkk => simp at h

/-- C7: key-resolution idempotence.  If a resolution returns a key, an
immediately repeated resolution (same endpoint, same key id, no
intervening activity) returns identical key material and leaves the state
exactly unchanged — in particular the fetch counter does not move, so the
second call performs no network access. -/
theorem c7_resolve_idempotent (env : Env) (st : VState) (url kid : String)
    (key : DecodingKey) (st1 : VState)
    (h : get_decoding_key_from_jwks env st url kid = (.ok key, st1)) :
    get_decoding_key_from_jwks env st1 url kid = (.ok key, st1)
    ∧ (get_decoding_key_from_jwks env st1 url kid).2.fetches
        = st1.fetches := by
  obtain ⟨m, t, hshape, htail, hkid⟩ :=
    resolve_ok_state env st url kid key st1 h
  have h2 := resolve_cached_hit env st1 url kid m t key hshape htail hkid
  exact ⟨h2, by rw [h2]⟩

theorem c7_resolve_idempotent_witness :
    get_decoding_key_from_jwks wEnvNet
      (get_decoding_key_from_jwks wEnvNet wSt0 "e0" "k1").2 "e0" "k1"
      = (.ok (.rsa "nn" "ee"),
         (get_decoding_key_from_jwks wEnvNet wSt0 "e0" "k1").2)
    ∧ (get_decoding_key_from_jwks wEnvNet
        (get_decoding_key_from_jwks wEnvNet wSt0 "e0" "k1").2 "e0" "k1"
        ).2.fetches
      = (get_decoding_key_from_jwks wEnvNet wSt0 "e0" "k1").2.fetches :=
  c7_resolve_idempotent wEnvNet wSt0 "e0" "k1" (.rsa "nn" "ee")
    (get_decoding_key_from_jwks wEnvNet wSt0 "e0" "k1").2 rfl

/-- `Lru.get` never grows the cache. -/
theorem lru_get_length_le (c : Lru) (k : String) :
    (Lru.get c k).2.length ≤ c.length := by
  unfold Lru.get
  cases hf : List.find? (fun p => p.1 = k) c with
  | none => exact le_refl _
  | some e =>
    have hmem : e ∈ c := List.mem_of_find?_eq_some hf
    have hek : e.1 = k := by simpa using List.find?_some hf
    have hlt : (List.filter (fun p => p.1 ≠ k) c).length < c.length :=
      List.length_filter_lt_length_iff_exists.mpr
        ⟨e, hmem, by simp [hek]⟩
    simpa using hlt

/-- `Lru.put` with capacity 10 always leaves at most ten entries. -/
theorem lru_put_length_le (c : Lru) (k : String) (v : KeyMap) :
    (Lru.put 10 c k v).length ≤ 10 := by
  unfold Lru.put
  by_cases hlen : 10 < ((k, v) :: List.filter (fun p => p.1 ≠ k) c).length
  · rw [if_pos hlen]
    simp [List.length_take]
  · rw [if_neg hlen]
    omega

/-- Putting a fresh endpoint keeps the ten most recent endpoint names. -/
theorem lru_put_fresh_keys (c : Lru) (k : String) (v : KeyMap)
    (hfresh : ¬ k ∈ Lru.keys c) :
    Lru.keys (Lru.put 10 c k v) = (k :: Lru.keys c).take 10 := by
  have hfilter : List.filter (fun p => p.1 ≠ k) c = c :=
    List.filter_eq_self.mpr (fun p hp => by
      simp only [decide_eq_true_eq]
      intro hpk
      exact hfresh (hpk ▸ List.mem_map_of_mem (fun q => q.1) hp))
  unfold Lru.put
  rw [hfilter]
  by_cases hlen : 10 < ((k, v) :: c).length
  · rw [if_pos hlen]
    simp [Lru.keys, List.map_take]
  · rw [if_neg hlen]
    have h10 : (k :: Lru.keys c).length ≤ 10 := by
      simpa [Lru.keys] using Nat.le_of_not_lt hlen
    rw [List.take_of_length_le h10]
    rfl

/-- Taking `n` of an append absorbs an inner `take n`. -/
theorem take_append_take {α : Type} (a b : List α) (n : Nat) :
    (a ++ b.take n).take n = (a ++ b).take n := by
  rw [List.take_append_eq_append_take, List.take_append_eq_append_take,
    List.take_take]
  congr 1
  rw [min_eq_left (Nat.sub_le n a.length)]

/-- Resolving a run of pairwise-distinct, not-yet-cached endpoints (each
fetch succeeding) leaves the cache holding the ten most recently resolved
endpoints, most recent first. -/
theorem resolveAll_fresh_keys (env : Env) (kid : String) :
    ∀ (es : List String) (st : VState), es.Nodup →
    st.cache.length ≤ 10 →
    (∀ url ∈ es, ¬ url ∈ Lru.keys st.cache) →
    (∀ url ∈ es, fetchOk env kid url) →
    Lru.keys (resolveAll env kid st es).cache
      = (es.reverse ++ Lru.keys st.cache).take 10 := by
  intro es
  induction es with
  | nil =>
    intro st _ hlen _ _
    have hkl : (Lru.keys st.cache).length ≤ 10 := by
      simpa [Lru.keys] using hlen
    simp [resolveAll, List.take_of_length_le hkl]
  | cons url rest ih =>
    intro st hnodup hlen hfresh hok
    have hfind : List.find? (fun p => p.1 = url) st.cache = none :=
      List.find?_eq_none.mpr (fun p hp => by
        simp only [decide_eq_true_eq]
        intro hpk
        exact hfresh url (List.mem_cons_self url rest)
          (hpk ▸ List.mem_map_of_mem (fun q => q.1) hp))
    obtain ⟨jwks, keys, km, key, hf, hkeys, hp, hkk⟩ :=
      hok url (List.mem_cons_self url rest)
    have hstep : (get_decoding_key_from_jwks env st url kid).2
        = { cache := Lru.put 10 st.cache url km,
            fetches := st.fetches + 1 } := by
      simp [get_decoding_key_from_jwks, Lru.get, hfind, hf, hkeys, hp, hkk]
    have hkeys2 : Lru.keys (Lru.put 10 st.cache url km)
        = (url :: Lru.keys st.cache).take 10 :=
      lru_put_fresh_keys st.cache url km
        (hfresh url (List.mem_cons_self url rest))
    have hsub : ∀ u, u ∈ Lru.keys (Lru.put 10 st.cache url km) →
        u = url ∨ u ∈ Lru.keys st.cache := by
      intro u hu
      rw [hkeys2] at hu
      simpa using List.take_subset 10 _ hu
    have hres := ih ⟨Lru.put 10 st.cache url km, st.fetches + 1⟩
      (List.Nodup.of_cons hnodup)
      (lru_put_length_le st.cache url km)
      (fun u hu hmem => by
        rcases hsub u hmem with rfl | hmem2
        · exact (List.nodup_cons.mp hnodup).1 hu
        · exact hfresh u (List.mem_cons_of_mem url hu) hmem2)
      (fun u hu => hok u (List.mem_cons_of_mem url hu))
    calc Lru.keys (resolveAll env kid st (url :: rest)).cache
        = Lru.keys (resolveAll env kid
            { cache := Lru.put 10 st.cache url km,
              fetches := st.fetches + 1 } rest).cache := by
          rw [resolveAll, hstep]
      _ = (rest.reverse ++ Lru.keys (Lru.put 10 st.cache url km)).take 10 :=
          hres
      _ = (rest.reverse ++ (url :: Lru.keys st.cache).take 10).take 10 := by
          rw [hkeys2]
      _ = (rest.reverse ++ (url :: Lru.keys st.cache)).take 10 :=
          take_append_take _ _ 10
      _ = ((url :: rest).reverse ++ Lru.keys st.cache).take 10 := by
          simp

/-- C6: the key cache is bounded and whole-replacing.  (i) A resolution
never leaves more than ten endpoint entries in a cache that had at most
ten.  (ii) Whenever a resolution takes the fetch path (cache miss, or hit
without the key id), the endpoint's entry afterwards is exactly the
freshly parsed key set, installed most-recently-used — a whole
replacement, not a merge.  (iii) Resolving eleven distinct endpoints from
an empty cache retains exactly ten entries, the ten most recent in
most-recently-used order, and the first-resolved (least-recently-used)
endpoint has been evicted. -/
theorem c6_cache_bound :
    (∀ (env : Env) (st : VState) (url kid : String),
      st.cache.length ≤ 10 →
      ((get_decoding_key_from_jwks env st url kid).2).cache.length ≤ 10)
    ∧ (∀ (env : Env) (st : VState) (url kid : String) (jwks : Json)
        (keys : List Json) (km : KeyMap),
      (match (Lru.get st.cache url).1 with
        | some ks => KeyMap.get? ks kid
        | none => none) = none →
      env.fetch url = .ok jwks →
      Json.as_arr? (jwks.idx "keys") = some keys →
      parse_keys env.rsaOk [] keys = .ok km →
      ((get_decoding_key_from_jwks env st url kid).2).cache.head?
        = some (url, km))
    ∧ (∀ (env : Env) (kid : String) (es : List String),
      es.Nodup → es.length = 11 →
      (∀ url ∈ es, fetchOk env kid url) →
      Lru.keys (resolveAll env kid ⟨[], 0⟩ es).cache = es.reverse.take 10
      ∧ (resolveAll env kid ⟨[], 0⟩ es).cache.length = 10
      ∧ ∀ e0, es.head? = some e0 →
          ¬ e0 ∈ Lru.keys (resolveAll env kid ⟨[], 0⟩ es).cache) := by
  refine ⟨?_, ?_, ?_⟩
  · intro env st url kid hlen
    simp only [get_decoding_key_from_jwks]
    repeat' split
    all_goals
      first
        | exact le_trans (lru_get_length_le st.cache url) hlen
        | exact lru_put_length_le _ _ _
  · intro env st url kid jwks keys km hmiss hf hkeys hp
    obtain ⟨t, hput, _⟩ := lru_put_shape (Lru.get st.cache url).2 url km
    simp only [get_decoding_key_from_jwks, hmiss, hf, hkeys, hp]
    split <;> simp [hput]
  · intro env kid es hnodup hlen hok
    have hmain := resolveAll_fresh_keys env kid es ⟨[], 0⟩ hnodup
      (by simp) (by intro u hu; simp [Lru.keys]) hok
    have hkeys : Lru.keys (resolveAll env kid ⟨[], 0⟩ es).cache
        = es.reverse.take 10 := by simpa [Lru.keys] using hmain
    refine ⟨hkeys, ?_, ?_⟩
    · have hl : (Lru.keys (resolveAll env kid ⟨[], 0⟩ es).cache).length
          = 10 := by
        rw [hkeys]
        simp [List.length_take, hlen]
      simpa [Lru.keys] using hl
    · intro e0 h0
      cases es with
      | nil => cases h0
      | cons a rest =>
        have ha : a = e0 := by simpa using h0
        subst ha
        rw [hkeys]
        have hrl : rest.reverse.length = 10 := by
          simp only [List.length_reverse]
          simpa using hlen
        have htake : (a :: rest).reverse.take 10 = rest.reverse := by
          rw [List.reverse_cons, ← hrl, List.take_left]
        rw [htake]
        intro hmem
        have hmem2 : a ∈ rest := by simpa using hmem
        exact (List.nodup_cons.mp hnodup).1 hmem2

theorem c6_cache_bound_witness :
    ((get_decoding_key_from_jwks wEnvNet wSt0 "e0" "k1").2).cache.length
        ≤ 10
    ∧ ((get_decoding_key_from_jwks wEnvNet wSt0 "e0" "k1").2).cache.head?
        = some ("e0", [("k1", DecodingKey.rsa "nn" "ee")])
    ∧ Lru.keys (resolveAll wEnvNet "k1" ⟨[], 0⟩ wEps).cache
        = ["e10", "e9", "e8", "e7", "e6", "e5", "e4", "e3", "e2", "e1"]
    ∧ (resolveAll wEnvNet "k1" ⟨[], 0⟩ wEps).cache.length = 10
    ∧ ¬ "e0" ∈ Lru.keys (resolveAll wEnvNet "k1" ⟨[], 0⟩ wEps).cache := by
  have hok : ∀ url ∈ wEps, fetchOk wEnvNet "k1" url := by
    intro url _
    exact ⟨wJwksGood,
      [.obj [("kid", .str "k1"), ("kty", .str "RSA"),
        ("n", .str "nn"), ("e", .str "ee")]],
      [("k1", DecodingKey.rsa "nn" "ee")], DecodingKey.rsa "nn" "ee",
      rfl, rfl, rfl, rfl⟩
  have h3 := c6_cache_bound.2.2 wEnvNet "k1" wEps (by decide) rfl hok
  refine ⟨c6_cache_bound.1 wEnvNet wSt0 "e0" "k1" (by decide),
    c6_cache_bound.2.1 wEnvNet wSt0 "e0" "k1" wJwksGood
      [.obj [("kid", .str "k1"), ("kty", .str "RSA"),
        ("n", .str "nn"), ("e", .str "ee")]]
      [("k1", DecodingKey.rsa "nn" "ee")] rfl rfl rfl rfl,
    h3.1.trans (by rfl), h3.2.1, h3.2.2 "e0" rfl⟩
